import Mathlib

/-!
Verification of `src/utils/convert.js` (zapier-platform-cli legacy app converter).

Shallow embedding of the converter.  JavaScript values that may flow into the
field renderer are modelled by `JSValue`; fallible code (renderers that can
throw, template reads that can fail) returns `Except String _`.  Object
mappings iterated with lodash `_.each` / `_.map` are modelled as association
lists in insertion order, matching the iteration order of string-keyed
JavaScript objects.
-/

namespace Convert

set_option maxRecDepth 16384
set_option maxHeartbeats 1000000

/-- A JavaScript value as it can appear in a legacy field definition. -/
inductive JSValue where
  | undefined : JSValue
  | null : JSValue
  | bool : Bool → JSValue
  | num : Int → JSValue
  | str : String → JSValue
  deriving DecidableEq, Repr

/-- JavaScript truthiness: `undefined`, `null`, `false`, `0` and `""` are falsy. -/
def truthy : JSValue → Bool
  | .undefined => false
  | .null => false
  | .bool b => b
  | .num n => n != 0
  | .str s => s != ""

/-- Lodash `_.isString`. -/
def isString : JSValue → Bool
  | .str _ => true
  | _ => false

/-- Coercion of a JavaScript value interpolated into a template literal. -/
def jsToString : JSValue → String
  | .undefined => "undefined"
  | .null => "null"
  | .bool b => if b then "true" else "false"
  | .num n => toString n
  | .str s => s

/-- Source constant `MIN_HELP_TEXT_LENGTH = 10`. -/
def MIN_HELP_TEXT_LENGTH : Nat := 10

/-- JS `String.prototype.toLowerCase()` (character-wise, as the tokens involved
are ASCII). -/
def jsToLower (s : String) : String := ⟨s.data.map Char.toLower⟩

/-- JS `Array.prototype.join(sep)`. -/
def joinSep (sep : String) : List String → String
  | [] => ""
  | [a] => a
  | a :: b :: rest => a ++ sep ++ joinSep sep (b :: rest)

/-- The `typesMap` object literal: map v2 field types to v3 types. -/
def typesMap : List (String × String) :=
  [("unicode", "string"),
   ("textarea", "text"),
   ("integer", "integer"),
   ("float", "number"),
   ("boolean", "boolean"),
   ("datetime", "datetime"),
   ("file", "file"),
   ("password", "password")]

/-- The `stepNamesMap` object literal: map v2 step names to v3 names,
in insertion order (`triggers`, `searches`, `actions`). -/
def stepNamesMap : List (String × String) :=
  [("triggers", "trigger"), ("searches", "search"), ("actions", "write")]

/-- The local `msg` of `padHelpText`:
`` `(help text must be at least ${MIN_HELP_TEXT_LENGTH} characters)` ``. -/
def helpMsg : String :=
  "(help text must be at least " ++ toString MIN_HELP_TEXT_LENGTH ++ " characters)"

/-- Source `padHelpText(text)`: non-strings become the fixed message, short strings
get the message appended after a space, long strings pass through. -/
def padHelpText : JSValue → String
  | .str s => if s.length < MIN_HELP_TEXT_LENGTH then s ++ " " ++ helpMsg else s
  | _ => helpMsg

/-- Source `renderProp(key, value)`. -/
def renderProp (key value : String) : String := key ++ ": " ++ value

/-- Source `quote(s)`. -/
def quote (s : String) : String := "'" ++ s ++ "'"

/-- A legacy field definition: an object whose properties may hold any value. -/
structure FieldDefinition where
  type : JSValue := .undefined
  label : JSValue := .undefined
  help_text : JSValue := .undefined
  required : JSValue := .undefined
  placeholder : JSValue := .undefined
  deriving DecidableEq, Repr

/-- The type-resolution expression of `renderField` (line 62):
`definition.type && typesMap[definition.type.toLowerCase()] || 'string'`.
A truthy non-string `type` makes `.toLowerCase()` throw a `TypeError`. -/
def resolveFieldType (v : JSValue) : Except String String :=
  if truthy v then
    match v with
    | .str s => .ok ((typesMap.lookup (jsToLower s)).getD "string")
    | _ => .error "TypeError: definition.type.toLowerCase is not a function"
  else
    .ok "string"

/-- Source `renderField(definition, key)`: renders one field object literal, or
throws if the type resolution throws. -/
def renderField (definition : FieldDefinition) (key : String) : Except String String := do
  let type ← resolveFieldType definition.type
  let props : List String :=
    [renderProp "key" (quote key),
     renderProp "label" (quote (jsToString definition.label)),
     renderProp "helpText" (quote (padHelpText definition.help_text)),
     renderProp "type" (quote type),
     renderProp "required" (jsToString (.bool (truthy definition.required)))]
  let props :=
    if truthy definition.placeholder then
      props ++ [renderProp "placeholder" (quote (jsToString definition.placeholder))]
    else props
  let props := props.map (fun s => "        " ++ s)
  pure ("      \x7b\n" ++ joinSep ",\n" props ++ "\n      \x7d")

/-- A sample-result-field spec (`sample_result_fields` entry) carrying its own
`key`, a raw `type` token, and a `label`. -/
structure SampleField where
  key : String
  type : String
  label : String
  deriving DecidableEq, Repr

/-- Source `renderSampleField(def)`: note the *raw* `typesMap[def.type]` lookup (no
lower-casing); a missed lookup leaves `type` as `undefined`, which the
template literal interpolates as the text `undefined`. -/
def renderSampleField (f : SampleField) : String :=
  let type := typesMap.lookup f.type
  "      " ++ f.key ++ ": \x7b\n        type: " ++ quote (type.getD "undefined") ++
    ",\n        label: " ++ quote f.label ++ "\n      \x7d"

/-- A legacy step definition: `fields` is a string-keyed mapping of field
definitions in insertion order, `sample_result_fields` an optional mapping
(absent modelled as the empty list, which is exactly what `_.isEmpty` tests). -/
structure StepDefinition where
  fields : List (String × FieldDefinition) := []
  sample_result_fields : List SampleField := []
  deriving DecidableEq, Repr

/-- Source `renderSample(definition)`. -/
def renderSample (definition : StepDefinition) : String :=
  let fields := definition.sample_result_fields.map renderSampleField
  "    sample: \x7b\n" ++ joinSep ",\n" fields ++ "\n    \x7d"

/-- The `general` section of a legacy app. -/
structure General where
  title : String := ""
  description : String := ""
  deriving DecidableEq, Repr

/-- The legacy app definition: `general` metadata plus the three step-category
mappings, each in insertion order. -/
structure LegacyApp where
  general : General := {}
  triggers : List (String × StepDefinition) := []
  searches : List (String × StepDefinition) := []
  actions : List (String × StepDefinition) := []
  deriving DecidableEq, Repr

/-- Splits a character list at separator characters. -/
def splitChars (p : Char → Bool) : List Char → List (List Char)
  | [] => [[]]
  | c :: cs =>
    let r := splitChars p cs
    if p c then [] :: r
    else
      match r with
      | [] => [[c]]
      | w :: ws => (c :: w) :: ws

/-- Splits an identifier into its separator-delimited words. -/
def wordsOf (s : String) : List String :=
  ((splitChars (fun c => c == '_' || c == '-' || c == ' ') s.data).map
    fun l => (⟨l⟩ : String)).filter (fun w => w ≠ "")

/-- Lodash `_.capitalize`: upper-case the first character, lower-case the rest. -/
def jsCapitalize (s : String) : String :=
  match s.data with
  | [] => ""
  | c :: cs => ⟨c.toUpper :: cs.map Char.toLower⟩

/-- Modelled from the spec: `camelCase` is imported from `src/utils/misc.js`,
which is not under `src/`; spec §4.6 asks for the camel-cased step key. -/
def camelCase (s : String) : String :=
  match wordsOf s with
  | [] => ""
  | w :: ws => jsToLower w ++ joinSep "" (ws.map jsCapitalize)

/-- Modelled from the spec: `snakeCase` is imported from `src/utils/misc.js`,
which is not under `src/`; spec §6 calls the output path's `<key>` the step's
normalized-separator key. -/
def snakeCase (s : String) : String :=
  joinSep "_" ((wordsOf s).map jsToLower)

/-- Modelled from the spec: lodash `_.kebabCase`, a normalized dashed
identifier (spec §4.7). -/
def kebabCase (s : String) : String :=
  joinSep "-" ((wordsOf s).map jsToLower)

/-- Modelled from the spec: the template files under `scaffold/convert` are not
under `src/`.  Per spec §6 the template collaborator interpolates a template
against a flat string-keyed context; a parsed template is a sequence of
literal chunks and `<%= NAME %>` placeholder chunks. -/
inductive Chunk where
  | lit : String → Chunk
  | var : String → Chunk
  deriving DecidableEq, Repr

/-- Interpolating one chunk against a context. -/
def Chunk.render (ctx : List (String × String)) : Chunk → String
  | .lit s => s
  | .var n => (ctx.lookup n).getD ""

/-- A template directory: maps a template name (`trigger`, `search`, `write`,
`index`, `package`) to its parsed chunks; a missing entry is a missing file. -/
abbrev TemplateStore := List (String × List Chunk)

/-- Interpolation of a whole template (`_.template` with the `<%= %>` regex):
the concatenation of the rendered chunks. -/
def interpolate : List Chunk → List (String × String) → String
  | [], _ => ""
  | c :: cs, ctx => c.render ctx ++ interpolate cs ctx

/-- Source `renderTemplate(templateFile, templateContext)`: reads the template file
(the promise rejects when it is missing or unreadable) and interpolates. -/
def renderTemplate (tpl : TemplateStore) (name : String)
    (ctx : List (String × String)) : Except String String :=
  match tpl.lookup name with
  | none => .error ("ENOENT: missing template " ++ name)
  | some t => .ok (interpolate t ctx)

/-- Lodash `_.map(collection, iteratee)` over a string-keyed mapping whose iteratee
may throw: the first thrown exception propagates. -/
def mapExcept (f : α → Except String β) : List α → Except String (List β)
  | [] => .ok []
  | a :: as =>
    match f a with
    | .error e => .error e
    | .ok b =>
      match mapExcept f as with
      | .error e => .error e
      | .ok bs => .ok (b :: bs)

/-- The template context built by `renderStep`. -/
def stepContext (key : String) (fields : List String) (sample : String) :
    List (String × String) :=
  [("KEY", snakeCase key), ("CAMEL", camelCase key), ("NOUN", jsCapitalize key),
   ("LOWER_NOUN", jsToLower key), ("FIELDS", joinSep ",\n" fields),
   ("SAMPLE", sample)]

/-- Source `renderStep(type, definition, key)`: renders all fields (a thrown
`renderField` error propagates), the optional sample, and interpolates the
category template. -/
def renderStep (tpl : TemplateStore) (type : String) (definition : StepDefinition)
    (key : String) : Except String String :=
  match mapExcept (fun s => renderField s.2 s.1) definition.fields with
  | .error e => .error e
  | .ok fields =>
    renderTemplate tpl type (stepContext key fields
      (if !definition.sample_result_fields.isEmpty then renderSample definition ++ ",\n"
       else ""))

/-- The `stepTypeMap` / `dirMap` object literal: v3 step type to directory. -/
def stepTypeMap : List (String × String) :=
  [("trigger", "triggers"), ("search", "searches"), ("write", "writes")]

/-- Source `writeStep(type, definition, key, newAppDir)`: renders the step and writes
it to `<dir>/<snakeCase key>.js`.  File writes are recorded as
`(path relative to the output root, content)` pairs. -/
def writeStep (tpl : TemplateStore) (type : String) (definition : StepDefinition)
    (key : String) : Except String (String × String) :=
  let fileName := ((stepTypeMap.lookup type).getD "undefined") ++ "/" ++ snakeCase key ++ ".js"
  (renderStep tpl type definition key).map fun content => (fileName, content)

/-- The per-step import line pushed by `renderIndex`. -/
def importLine (v3Type name : String) : String :=
  let varName := camelCase name ++ jsCapitalize (camelCase v3Type)
  "const " ++ varName ++ " = require('./" ++
    ((stepTypeMap.lookup v3Type).getD "undefined") ++ "/" ++ snakeCase name ++ "');"

/-- The per-step `[varName.key]: varName,` mapping line pushed by `renderIndex`. -/
def mappingLine (v3Type name : String) : String :=
  let varName := camelCase name ++ jsCapitalize (camelCase v3Type)
  "[" ++ varName ++ ".key]: " ++ varName ++ ","

/-- One iteration of the outer `_.each` of `renderIndex`: pushes this
category's import lines onto the shared `importLines` accumulator and
collects the category's mapping lines. -/
def indexCategory (v3Type : String) (steps : List (String × StepDefinition))
    (importLines : List String) : List String × List String :=
  steps.foldl
    (fun acc step => (acc.1 ++ [importLine v3Type step.1], acc.2 ++ [mappingLine v3Type step.1]))
    (importLines, [])

/-- The template context built by `renderIndex` (sections in `stepNamesMap`
iteration order: triggers, then searches, then actions). -/
def renderIndexContext (app : LegacyApp) : List (String × String) :=
  let (il, trigLines) := indexCategory "trigger" app.triggers []
  let (il, searchLines) := indexCategory "search" app.searches il
  let (il, writeLines) := indexCategory "write" app.actions il
  [("TRIGGERS", joinSep ",\n" trigLines),
   ("SEARCHES", joinSep ",\n" searchLines),
   ("WRITES", joinSep ",\n" writeLines),
   ("REQUIRES", joinSep "\n" il)]

/-- Source `renderIndex(legacyApp)`. -/
def renderIndex (tpl : TemplateStore) (app : LegacyApp) : Except String String :=
  renderTemplate tpl "index" (renderIndexContext app)

/-- Source `writeIndex(legacyApp, newAppDir)`. -/
def writeIndex (tpl : TemplateStore) (app : LegacyApp) : Except String (String × String) :=
  (renderIndex tpl app).map fun content => ("index.js", content)

/-- Source `renderPackageJson(legacyApp)`. -/
def renderPackageJson (tpl : TemplateStore) (app : LegacyApp) : Except String String :=
  renderTemplate tpl "package"
    [("NAME", kebabCase app.general.title), ("DESCRIPTION", app.general.description)]

/-- Source `writePackageJson(legacyApp, newAppDir)`. -/
def writePackageJson (tpl : TemplateStore) (app : LegacyApp) : Except String (String × String) :=
  (renderPackageJson tpl app).map fun content => ("package.json", content)

/-- Source `legacyApp[v2Type]`: indexing the legacy app by a category name string. -/
def categorySteps (app : LegacyApp) (v2Type : String) : List (String × StepDefinition) :=
  if v2Type = "triggers" then app.triggers
  else if v2Type = "searches" then app.searches
  else if v2Type = "actions" then app.actions
  else []

/-- The `promises` array built by `convertApp` before `Promise.all`: one
render-and-write task per step (categories in `stepNamesMap` iteration order,
steps in insertion order), then the index task and the package.json task. -/
def convertTasks (tpl : TemplateStore) (app : LegacyApp) :
    List (Except String (String × String)) :=
  let promises := stepNamesMap.foldl
    (fun acc entry =>
      (categorySteps app entry.1).foldl
        (fun acc2 step => acc2 ++ [writeStep tpl entry.2 step.2 step.1]) acc)
    []
  promises ++ [writeIndex tpl app, writePackageJson tpl app]

/-- JS `Promise.all`: resolves with the list of results when every task resolves,
and rejects whenever any task rejects. -/
def promiseAll : List (Except String α) → Except String (List α)
  | [] => .ok []
  | t :: ts =>
    match t with
    | .error e => .error e
    | .ok v =>
      match promiseAll ts with
      | .error e => .error e
      | .ok vs => .ok (v :: vs)

/-- Source `convertApp(legacyApp, newAppDir)`: fire all render-and-write tasks and
join them. -/
def convertApp (tpl : TemplateStore) (app : LegacyApp) :
    Except String (List (String × String)) :=
  promiseAll (convertTasks tpl app)

/-! ## Generic helper lemmas -/

/-- Predicate: `pat` occurs as a contiguous substring of `s`. -/
def hasSub (s pat : String) : Bool :=
  (List.range (s.data.length + 1)).any fun i =>
    (s.data.drop i).take pat.data.length == pat.data

theorem hasSub_of_decomp {s pat : String} {l₁ l₂ : List Char}
    (h : s.data = l₁ ++ (pat.data ++ l₂)) : hasSub s pat = true := by
  unfold hasSub
  rw [List.any_eq_true]
  refine ⟨l₁.length, List.mem_range.mpr ?_, ?_⟩
  · have hlen : s.data.length = l₁.length + (pat.data.length + l₂.length) := by
      rw [h, List.length_append, List.length_append]
    omega
  · rw [h, List.drop_left, List.take_left]
    exact beq_self_eq_true _

theorem joinSep_mem_decomp (sep : String) {l : List String} {a : String} (h : a ∈ l) :
    ∃ l₁ l₂, (joinSep sep l).data = l₁ ++ (a.data ++ l₂) := by
  induction l with
  | nil => cases h
  | cons b t ih =>
    rcases List.mem_cons.mp h with rfl | ht
    · cases t with
      | nil => exact ⟨[], [], by simp [joinSep]⟩
      | cons c u =>
        exact ⟨[], (sep ++ joinSep sep (c :: u)).data,
          by simp [joinSep, String.data_append, List.append_assoc]⟩
    · cases t with
      | nil => cases ht
      | cons c u =>
        obtain ⟨l₁, l₂, hd⟩ := ih ht
        exact ⟨(b ++ sep).data ++ l₁, l₂,
          by simp [joinSep, String.data_append, hd, List.append_assoc]⟩

/-! ## C2 -/

/-- C2: the field-type mapping is case-insensitive on its input and total with
default: a token whose lower-casing is in the fixed table maps to the table's
value, any token whose lower-casing is absent maps to `"string"`, and a
missing (`undefined`) or `null` type maps to `"string"`. -/
theorem mapFieldType_spec :
    (∀ (s v : String), typesMap.lookup (jsToLower s) = some v →
      resolveFieldType (.str s) = .ok v) ∧
    (∀ s : String, typesMap.lookup (jsToLower s) = none →
      resolveFieldType (.str s) = .ok "string") ∧
    resolveFieldType .undefined = .ok "string" ∧
    resolveFieldType .null = .ok "string" := by
  refine ⟨fun s v h => ?_, fun s h => ?_, rfl, rfl⟩
  · have hs : s ≠ "" := by
      rintro rfl
      rw [show jsToLower "" = "" from rfl,
        show typesMap.lookup "" = none from by decide] at h
      cases h
    simp [resolveFieldType, truthy, bne_iff_ne, hs, h]
  · by_cases hs : s = ""
    · subst hs; rfl
    · simp [resolveFieldType, truthy, bne_iff_ne, hs, h]

theorem mapFieldType_spec_witness :
    resolveFieldType (.str "UNICODE") = .ok "string" ∧
    resolveFieldType (.str "Textarea") = .ok "text" ∧
    resolveFieldType (.str "mystery_token") = .ok "string" :=
  ⟨mapFieldType_spec.1 "UNICODE" "string" (by decide),
   mapFieldType_spec.1 "Textarea" "text" (by decide),
   mapFieldType_spec.2.1 "mystery_token" (by decide)⟩

/-! ## C3 -/

/-- C3: `padHelpText` returns exactly the fixed warning for every non-string
input, the input followed by a space and the warning for every string shorter
than 10 characters, and the input unchanged for every string of length ≥ 10. -/
theorem padHelpText_spec :
    (∀ v : JSValue, isString v = false →
      padHelpText v = "(help text must be at least 10 characters)") ∧
    (∀ s : String, s.length < 10 →
      padHelpText (.str s) = s ++ " " ++ "(help text must be at least 10 characters)") ∧
    (∀ s : String, 10 ≤ s.length → padHelpText (.str s) = s) := by
  have hm : helpMsg = "(help text must be at least 10 characters)" := by decide
  refine ⟨fun v hv => ?_, fun s hs => ?_, fun s hs => ?_⟩
  · cases v <;> first | (rw [← hm]; rfl) | (simp [isString] at hv)
  · have hlt : s.length < MIN_HELP_TEXT_LENGTH := hs
    simp [padHelpText, hlt, hm]
  · have hge : ¬ s.length < MIN_HELP_TEXT_LENGTH := by
      simp [MIN_HELP_TEXT_LENGTH]; omega
    simp [padHelpText, hge]

theorem padHelpText_spec_witness :
    padHelpText .undefined = "(help text must be at least 10 characters)" ∧
    padHelpText (.num 42) = "(help text must be at least 10 characters)" ∧
    padHelpText (.str "hi") = "hi" ++ " " ++ "(help text must be at least 10 characters)" ∧
    padHelpText (.str "this is long enough") = "this is long enough" :=
  ⟨padHelpText_spec.1 .undefined rfl,
   padHelpText_spec.1 (.num 42) rfl,
   padHelpText_spec.2.1 "hi" (by decide),
   padHelpText_spec.2.2 "this is long enough" (by decide)⟩

/-! ## C10 -/

/-- C10: `padHelpText` is idempotent, because every output of `padHelpText`
has length at least 10 (the fixed warning alone is 42 characters long). -/
theorem padHelpText_idempotent (x : JSValue) :
    padHelpText (.str (padHelpText x)) = padHelpText x := by
  have hmsg : helpMsg.length = 42 := by decide
  have hone : (" " : String).length = 1 := rfl
  have key : ∀ y : JSValue, 10 ≤ (padHelpText y).length := by
    intro y
    cases y with
    | str s =>
      by_cases h : s.length < MIN_HELP_TEXT_LENGTH
      · simp only [padHelpText, if_pos h]
        rw [String.length_append, String.length_append, hone, hmsg]
        omega
      · simp only [padHelpText, if_neg h]
        simp [MIN_HELP_TEXT_LENGTH] at h
        omega
    | undefined => rw [show padHelpText .undefined = helpMsg from rfl, hmsg]; omega
    | null => rw [show padHelpText .null = helpMsg from rfl, hmsg]; omega
    | bool b => rw [show padHelpText (.bool b) = helpMsg from rfl, hmsg]; omega
    | num n => rw [show padHelpText (.num n) = helpMsg from rfl, hmsg]; omega
  have h10 : ¬ (padHelpText x).length < MIN_HELP_TEXT_LENGTH := by
    have h42 := key x
    simp only [MIN_HELP_TEXT_LENGTH]
    omega
  rw [show padHelpText (.str (padHelpText x)) =
      if (padHelpText x).length < MIN_HELP_TEXT_LENGTH then
        padHelpText x ++ " " ++ helpMsg
      else padHelpText x from rfl,
    if_neg h10]

/-! ## C1 -/

/-- C1 is refuted as stated: a field definition whose `type` is the number
`42` (a truthy non-string) makes `renderField` throw a `TypeError` from
`definition.type.toLowerCase()` instead of producing a fragment. -/
theorem renderField_aborts_on_numeric_type :
    renderField { type := JSValue.num 42 } "field_key" =
      .error "TypeError: definition.type.toLowerCase is not a function" := rfl

/-- C1 (amended): for every field definition whose `type` is either falsy
(absent, `null`, `false`, `0`, `""`) or a string — of any content — and
whose other properties have any shape whatsoever, `renderField` returns a
rendered fragment and never aborts. -/
theorem renderField_never_aborts (d : FieldDefinition) (k : String)
    (h : truthy d.type = true → isString d.type = true) :
    ∃ out, renderField d k = .ok out := by
  have hty : ∃ t, resolveFieldType d.type = .ok t := by
    cases hd : d.type with
    | undefined => exact ⟨"string", rfl⟩
    | null => exact ⟨"string", rfl⟩
    | bool b =>
      cases b
      · exact ⟨"string", rfl⟩
      · rw [hd] at h; simp [truthy, isString] at h
    | num n =>
      by_cases hn : n = 0
      · subst hn; exact ⟨"string", rfl⟩
      · rw [hd] at h; simp [truthy, isString, hn] at h
    | str s =>
      cases hb : truthy (.str s) <;> simp [resolveFieldType, hb]
  obtain ⟨t, ht⟩ := hty
  exact ⟨_, by unfold renderField; rw [ht]; rfl⟩

theorem renderField_never_aborts_witness :
    ∃ out,
      renderField { type := JSValue.str "UNICODE", required := JSValue.bool true }
        "foo" = .ok out :=
  renderField_never_aborts _ "foo" (fun _ => rfl)

/-! ## C4 -/

/-- C4: `renderField` renders the ordered property list `key`, `label`,
`helpText`, `type`, `required`; `required` is the boolean coercion of the
input (so `false` when absent); when `definition.placeholder` is truthy a
quoted `placeholder` property is appended as the final listed property; and
the fragment for `renderField({required: undefined}, "foo")` contains a
`required: false` property and a `key: 'foo'` property and no `placeholder`
property. -/
theorem renderField_format_spec :
    (∀ (d : FieldDefinition) (k t : String), resolveFieldType d.type = .ok t →
      truthy d.placeholder = false →
      renderField d k = .ok
        ("      \x7b\n" ++
         "        " ++ renderProp "key" (quote k) ++ ",\n" ++
         "        " ++ renderProp "label" (quote (jsToString d.label)) ++ ",\n" ++
         "        " ++ renderProp "helpText" (quote (padHelpText d.help_text)) ++ ",\n" ++
         "        " ++ renderProp "type" (quote t) ++ ",\n" ++
         "        " ++ renderProp "required" (if truthy d.required then "true" else "false") ++
         "\n      \x7d")) ∧
    (∀ (d : FieldDefinition) (k t : String), resolveFieldType d.type = .ok t →
      truthy d.placeholder = true →
      renderField d k = .ok
        ("      \x7b\n" ++
         "        " ++ renderProp "key" (quote k) ++ ",\n" ++
         "        " ++ renderProp "label" (quote (jsToString d.label)) ++ ",\n" ++
         "        " ++ renderProp "helpText" (quote (padHelpText d.help_text)) ++ ",\n" ++
         "        " ++ renderProp "type" (quote t) ++ ",\n" ++
         "        " ++ renderProp "required" (if truthy d.required then "true" else "false") ++ ",\n" ++
         "        " ++ renderProp "placeholder" (quote (jsToString d.placeholder)) ++
         "\n      \x7d")) ∧
    (∃ out, renderField { required := .undefined } "foo" = .ok out ∧
      hasSub out "required: false" = true ∧
      hasSub out "key: 'foo'" = true ∧
      hasSub out "placeholder" = false) := by
  refine ⟨fun d k t hok hp => ?_, fun d k t hok hp => ?_, ?_⟩
  · unfold renderField
    rw [hok, hp]
    simp only [Bool.false_eq_true, if_false, List.map_cons, List.map_nil, joinSep,
      String.append_assoc]
    rfl
  · unfold renderField
    rw [hok, hp]
    simp only [if_true, List.append_nil, List.cons_append, List.nil_append, List.map_cons,
      List.map_nil, joinSep, String.append_assoc]
    rfl
  · refine ⟨"      \x7b\n        key: 'foo',\n        label: 'undefined',\n        helpText: '(help text must be at least 10 characters)',\n        type: 'string',\n        required: false\n      \x7d",
      rfl, by decide, by decide, by decide⟩

theorem renderField_format_spec_witness :
    renderField { placeholder := .str "e.g. 123" } "bar" =
      .ok "      \x7b\n        key: 'bar',\n        label: 'undefined',\n        helpText: '(help text must be at least 10 characters)',\n        type: 'string',\n        required: false,\n        placeholder: 'e.g. 123'\n      \x7d" := by
  rw [renderField_format_spec.2.1 { placeholder := .str "e.g. 123" } "bar" "string" rfl rfl]
  exact congrArg Except.ok (by decide)

/-! ## C5 -/

/-- C5: for every non-empty `sample_result_fields` mapping, `renderSample`
wraps the rendered entries under a `sample: { ... }` literal, each pair's
entry of the form `<key>: { type: '<mappedType>', label: '<label>' }`
occurring verbatim in the body, where the type lookup uses the *raw* legacy
type token (not lower-cased), so `"Unicode"` — whose case misses the table —
maps to the `undefined` value while `"unicode"` maps to `string`. -/
theorem renderSample_spec :
    (∀ f : SampleField, renderSampleField f =
      "      " ++ f.key ++ ": \x7b\n        type: " ++
        quote ((typesMap.lookup f.type).getD "undefined") ++
        ",\n        label: " ++ quote f.label ++ "\n      \x7d") ∧
    (∀ d : StepDefinition, d.sample_result_fields ≠ [] →
      ∃ body, renderSample d = "    sample: \x7b\n" ++ body ++ "\n    \x7d" ∧
        ∀ f ∈ d.sample_result_fields, hasSub body (renderSampleField f) = true) ∧
    renderSampleField ⟨"id", "Unicode", "The ID"⟩ =
      "      id: \x7b\n        type: 'undefined',\n        label: 'The ID'\n      \x7d" ∧
    renderSampleField ⟨"id", "unicode", "The ID"⟩ =
      "      id: \x7b\n        type: 'string',\n        label: 'The ID'\n      \x7d" := by
  refine ⟨fun f => rfl, fun d hd => ?_, rfl, rfl⟩
  refine ⟨joinSep ",\n" (d.sample_result_fields.map renderSampleField), rfl, ?_⟩
  intro f hf
  obtain ⟨l₁, l₂, h⟩ :=
    joinSep_mem_decomp ",\n" (List.mem_map_of_mem renderSampleField hf)
  exact hasSub_of_decomp h

theorem renderSample_spec_witness :
    ∃ body,
      renderSample { sample_result_fields := [⟨"id", "Unicode", "The ID"⟩] } =
        "    sample: \x7b\n" ++ body ++ "\n    \x7d" ∧
      hasSub body (renderSampleField ⟨"id", "Unicode", "The ID"⟩) = true := by
  obtain ⟨body, h1, h2⟩ :=
    renderSample_spec.2.1 { sample_result_fields := [⟨"id", "Unicode", "The ID"⟩] }
      (by decide)
  exact ⟨body, h1, h2 _ (List.mem_singleton.mpr rfl)⟩

/-! ## C6 -/

theorem foldl_push_eq_map {α β : Type} (f : α → β) (l : List α) (acc : List β) :
    l.foldl (fun a s => a ++ [f s]) acc = acc ++ l.map f := by
  induction l generalizing acc with
  | nil => simp
  | cons x t ih => simp [List.foldl_cons, ih, List.append_assoc]

theorem indexCategory_eq (v3 : String) (steps : List (String × StepDefinition))
    (il : List String) :
    indexCategory v3 steps il =
      (il ++ steps.map fun s => importLine v3 s.1,
       steps.map fun s => mappingLine v3 s.1) := by
  have aux : ∀ acc : List String × List String,
      steps.foldl (fun acc step =>
        (acc.1 ++ [importLine v3 step.1], acc.2 ++ [mappingLine v3 step.1])) acc =
      (acc.1 ++ steps.map fun s => importLine v3 s.1,
       acc.2 ++ steps.map fun s => mappingLine v3 s.1) := by
    induction steps with
    | nil => intro acc; simp
    | cons x t ih => intro acc; simp [List.foldl_cons, ih, List.append_assoc]
  simpa [indexCategory] using aux (il, [])

/-- C6: in the rendered index context, import lines within each category
follow the insertion order of that category's mapping, the categories are
emitted in the fixed order triggers, searches, actions, each step's variable
name is the camel-cased step key concatenated with the capitalized category
noun, and — because each category's lines are exactly the map of the line
builder over the input list — reordering the input mapping permutes the
output identically. -/
theorem renderIndexContext_spec (app : LegacyApp) :
    (renderIndexContext app).lookup "REQUIRES" =
      some (joinSep "\n"
        (app.triggers.map (fun s =>
          "const " ++ (camelCase s.1 ++ "Trigger") ++ " = require('./" ++
            "triggers" ++ "/" ++ snakeCase s.1 ++ "');") ++
         app.searches.map (fun s =>
          "const " ++ (camelCase s.1 ++ "Search") ++ " = require('./" ++
            "searches" ++ "/" ++ snakeCase s.1 ++ "');") ++
         app.actions.map (fun s =>
          "const " ++ (camelCase s.1 ++ "Write") ++ " = require('./" ++
            "writes" ++ "/" ++ snakeCase s.1 ++ "');"))) ∧
    (renderIndexContext app).lookup "TRIGGERS" =
      some (joinSep ",\n" (app.triggers.map fun s =>
        "[" ++ (camelCase s.1 ++ "Trigger") ++ ".key]: " ++
          (camelCase s.1 ++ "Trigger") ++ ",")) ∧
    (renderIndexContext app).lookup "SEARCHES" =
      some (joinSep ",\n" (app.searches.map fun s =>
        "[" ++ (camelCase s.1 ++ "Search") ++ ".key]: " ++
          (camelCase s.1 ++ "Search") ++ ",")) ∧
    (renderIndexContext app).lookup "WRITES" =
      some (joinSep ",\n" (app.actions.map fun s =>
        "[" ++ (camelCase s.1 ++ "Write") ++ ".key]: " ++
          (camelCase s.1 ++ "Write") ++ ",")) := by
  refine ⟨?_, ?_, ?_, ?_⟩ <;>
    · simp only [renderIndexContext, indexCategory_eq, List.nil_append]
      rfl

/-! ## C8 -/

theorem promiseAll_ok_iff {α : Type} {l : List (Except String α)} :
    (∃ r, promiseAll l = .ok r) ↔ ∀ t ∈ l, ∃ v, t = .ok v := by
  induction l with
  | nil => simp [promiseAll]
  | cons x ts ih =>
    constructor
    · rintro ⟨r, hr⟩ t ht
      cases hx : x with
      | error e => rw [hx] at hr; simp [promiseAll] at hr
      | ok v =>
        rw [hx] at hr
        cases hts : promiseAll ts with
        | error e => simp [promiseAll, hts] at hr
        | ok vs =>
          rcases List.mem_cons.mp ht with rfl | hmem
          · exact ⟨v, hx⟩
          · exact ih.mp ⟨vs, hts⟩ t hmem
    · intro h
      obtain ⟨v, hv⟩ := h x (List.mem_cons_self x ts)
      obtain ⟨vs, hvs⟩ := ih.mpr fun t ht => h t (List.mem_cons_of_mem _ ht)
      exact ⟨v :: vs, by rw [hv]; simp [promiseAll, hvs]⟩

theorem promiseAll_error_mem {α : Type} {l : List (Except String α)} {e : String}
    (h : promiseAll l = .error e) : ∃ t ∈ l, t = .error e := by
  induction l with
  | nil => simp [promiseAll] at h
  | cons x ts ih =>
    cases hx : x with
    | error e' =>
      rw [hx] at h
      have he : e' = e := by simpa [promiseAll] using h
      exact ⟨.error e', List.mem_cons_self _ _, by rw [he]⟩
    | ok v =>
      rw [hx] at h
      cases hts : promiseAll ts with
      | error e' =>
        have he : e' = e := by simpa [promiseAll, hts] using h
        obtain ⟨t, ht, hte⟩ := ih (he ▸ hts)
        exact ⟨t, List.mem_cons_of_mem _ ht, hte⟩
      | ok vs => simp [promiseAll, hts] at h

theorem promiseAll_append_ok {α : Type} {l₁ l₂ : List (Except String α)} {r : List α}
    (h : promiseAll (l₁ ++ l₂) = .ok r) :
    ∃ r₁ r₂, promiseAll l₁ = .ok r₁ ∧ promiseAll l₂ = .ok r₂ ∧ r = r₁ ++ r₂ := by
  induction l₁ generalizing r with
  | nil => exact ⟨[], r, rfl, h, rfl⟩
  | cons x t ih =>
    rw [List.cons_append] at h
    cases hx : x with
    | error e => rw [hx] at h; simp [promiseAll] at h
    | ok v =>
      rw [hx] at h
      cases htl : promiseAll (t ++ l₂) with
      | error e => simp [promiseAll, htl] at h
      | ok vs =>
        have hr : v :: vs = r := by simpa [promiseAll, htl] using h
        obtain ⟨r₁, r₂, h1, h2, h3⟩ := ih htl
        refine ⟨v :: r₁, r₂, ?_, h2, ?_⟩
        · simp [promiseAll, h1]
        · rw [← hr, h3]; rfl

theorem categorySteps_triggers (app : LegacyApp) :
    categorySteps app "triggers" = app.triggers := rfl

theorem categorySteps_searches (app : LegacyApp) :
    categorySteps app "searches" = app.searches := rfl

theorem categorySteps_actions (app : LegacyApp) :
    categorySteps app "actions" = app.actions := rfl

theorem convertTasks_eq (tpl : TemplateStore) (app : LegacyApp) :
    convertTasks tpl app =
      (app.triggers.map fun s => writeStep tpl "trigger" s.2 s.1) ++
      ((app.searches.map fun s => writeStep tpl "search" s.2 s.1) ++
       ((app.actions.map fun s => writeStep tpl "write" s.2 s.1) ++
        [writeIndex tpl app, writePackageJson tpl app])) := by
  simp only [convertTasks, stepNamesMap, List.foldl_cons, List.foldl_nil,
    categorySteps_triggers, categorySteps_searches, categorySteps_actions,
    foldl_push_eq_map, List.nil_append, List.append_assoc]

theorem writeStep_template_missing {tpl : TemplateStore} {ty : String}
    (hnone : tpl.lookup ty = none) (d : StepDefinition) (k : String) :
    ∃ e, writeStep tpl ty d k = .error e := by
  unfold writeStep renderStep
  cases hm : mapExcept (fun s => renderField s.2 s.1) d.fields with
  | error e => exact ⟨e, by simp [Except.map]⟩
  | ok fs =>
    exact ⟨"ENOENT: missing template " ++ ty, by simp [renderTemplate, hnone, Except.map]⟩

/-- C8: `convertApp` resolves exactly when every scheduled render-and-write
task (all step files, the index file, the manifest file) resolves; every
rejection is the rejection of one of its tasks; and a missing template for a
category with at least one step rejects the whole conversion — there is no
partial-completion recovery. -/
theorem convertApp_all_or_nothing (tpl : TemplateStore) (app : LegacyApp) :
    ((∃ files, convertApp tpl app = .ok files) ↔
      ∀ task ∈ convertTasks tpl app, ∃ v, task = .ok v) ∧
    (∀ e, convertApp tpl app = .error e →
      ∃ task ∈ convertTasks tpl app, task = .error e) ∧
    (∀ v2 v3, (v2, v3) ∈ stepNamesMap → categorySteps app v2 ≠ [] →
      tpl.lookup v3 = none → ∃ e, convertApp tpl app = .error e) := by
  refine ⟨promiseAll_ok_iff, fun e he => promiseAll_error_mem he,
    fun v2 v3 hmem hne hnone => ?_⟩
  have htask : ∃ task ∈ convertTasks tpl app, ∃ e, task = .error e := by
    obtain ⟨⟨k, d⟩, hkd⟩ : ∃ s, s ∈ categorySteps app v2 := by
      cases hcs : categorySteps app v2 with
      | nil => exact absurd hcs hne
      | cons s t => exact ⟨s, List.mem_cons_self _ _⟩
    obtain ⟨e, he⟩ := writeStep_template_missing hnone d k
    refine ⟨writeStep tpl v3 d k, ?_, e, he⟩
    rw [convertTasks_eq]
    simp only [stepNamesMap, List.mem_cons, List.not_mem_nil, or_false,
      Prod.mk.injEq] at hmem
    rcases hmem with ⟨h2, h3⟩ | ⟨h2, h3⟩ | ⟨h2, h3⟩ <;> subst h2 <;> subst h3
    · exact List.mem_append_left _
        (List.mem_map_of_mem _ (categorySteps_triggers app ▸ hkd))
    · exact List.mem_append_right _ (List.mem_append_left _
        (List.mem_map_of_mem _ (categorySteps_searches app ▸ hkd)))
    · exact List.mem_append_right _ (List.mem_append_right _
        (List.mem_append_left _
          (List.mem_map_of_mem _ (categorySteps_actions app ▸ hkd))))
  cases hc : convertApp tpl app with
  | ok files =>
    exfalso
    obtain ⟨task, htmem, e, hte⟩ := htask
    obtain ⟨v, hv⟩ := promiseAll_ok_iff.mp ⟨files, hc⟩ task htmem
    rw [hte] at hv
    cases hv
  | error e => exact ⟨e, rfl⟩

theorem convertApp_all_or_nothing_witness :
    ∃ e, convertApp [] { triggers := [("a", {})] } = .error e :=
  (convertApp_all_or_nothing [] { triggers := [("a", {})] }).2.2 "triggers" "trigger"
    (by decide) (by decide) rfl

/-! ## C7 -/

theorem mapExcept_ok_mem {α β : Type} {f : α → Except String β} {l : List α} {r : List β}
    (h : mapExcept f l = .ok r) {a : α} (ha : a ∈ l) {b : β} (hb : f a = .ok b) :
    b ∈ r := by
  induction l generalizing r with
  | nil => cases ha
  | cons x t ih =>
    simp only [mapExcept] at h
    cases hx : f x with
    | error e => rw [hx] at h; cases h
    | ok v =>
      rw [hx] at h
      cases hmt : mapExcept f t with
      | error e => rw [hmt] at h; cases h
      | ok vs =>
        rw [hmt] at h
        cases h
        rcases List.mem_cons.mp ha with rfl | hat
        · rw [hx] at hb; cases hb; exact List.mem_cons_self _ _
        · exact List.mem_cons_of_mem _ (ih hmt hat)

theorem interpolate_mem_decomp {t : List Chunk} {c : Chunk} (h : c ∈ t)
    (ctx : List (String × String)) :
    ∃ l₁ l₂, (interpolate t ctx).data = l₁ ++ ((c.render ctx).data ++ l₂) := by
  induction t with
  | nil => cases h
  | cons d u ih =>
    rcases List.mem_cons.mp h with rfl | hu
    · exact ⟨[], (interpolate u ctx).data, by simp [interpolate, String.data_append]⟩
    · obtain ⟨l₁, l₂, hd⟩ := ih hu
      exact ⟨(d.render ctx).data ++ l₁, l₂,
        by simp [interpolate, String.data_append, hd, List.append_assoc]⟩

/-- A successfully rendered step whose template interpolates the `FIELDS`
placeholder contains every rendered field fragment verbatim. -/
theorem renderStep_fields_hasSub {tpl : TemplateStore} {ty : String}
    {d : StepDefinition} {k : String} {c : String}
    (hr : renderStep tpl ty d k = .ok c)
    {t : List Chunk} (hlk : tpl.lookup ty = some t) (hv : Chunk.var "FIELDS" ∈ t)
    {p : String × FieldDefinition} (hp : p ∈ d.fields)
    {frag : String} (hf : renderField p.2 p.1 = .ok frag) :
    hasSub c frag = true := by
  unfold renderStep at hr
  cases hm : mapExcept (fun s => renderField s.2 s.1) d.fields with
  | error e => rw [hm] at hr; cases hr
  | ok fs =>
    rw [hm] at hr
    simp only [renderTemplate, hlk, Except.ok.injEq] at hr
    have hmem : frag ∈ fs := mapExcept_ok_mem hm hp hf
    obtain ⟨l₁, l₂, h1⟩ := interpolate_mem_decomp hv
      (stepContext k fs
        (if !d.sample_result_fields.isEmpty then renderSample d ++ ",\n" else ""))
    rw [show
        Chunk.render
          (stepContext k fs
            (if !d.sample_result_fields.isEmpty then renderSample d ++ ",\n" else ""))
          (Chunk.var "FIELDS") = joinSep ",\n" fs from rfl] at h1
    obtain ⟨m₁, m₂, h2⟩ := joinSep_mem_decomp ",\n" hmem
    rw [h2] at h1
    rw [← hr]
    exact hasSub_of_decomp
      (show (interpolate t
          (stepContext k fs
            (if !d.sample_result_fields.isEmpty then renderSample d ++ ",\n"
             else ""))).data =
        (l₁ ++ m₁) ++ (frag.data ++ (m₂ ++ l₂)) from by
        rw [h1]; simp [List.append_assoc])

/-- C7: for a legacy app with exactly one trigger, one search and one action,
`convertApp` writes exactly five files — `triggers/<key>.js`,
`searches/<key>.js`, `writes/<key>.js`, `index.js` and `package.json`, with
`<key>` the snake-cased step key — and whenever a step's template
interpolates the `FIELDS` placeholder, that step file's content contains each
of the step's rendered field fragments verbatim. -/
theorem convertApp_five_files (tpl : TemplateStore) (g : General)
    (k1 k2 k3 : String) (d1 d2 d3 : StepDefinition)
    (files : List (String × String))
    (h : convertApp tpl
      { general := g, triggers := [(k1, d1)], searches := [(k2, d2)],
        actions := [(k3, d3)] } = .ok files) :
    ∃ c1 c2 c3 ci cp,
      files = [("triggers/" ++ snakeCase k1 ++ ".js", c1),
               ("searches/" ++ snakeCase k2 ++ ".js", c2),
               ("writes/" ++ snakeCase k3 ++ ".js", c3),
               ("index.js", ci), ("package.json", cp)] ∧
      (∀ t, tpl.lookup "trigger" = some t → Chunk.var "FIELDS" ∈ t →
        ∀ p ∈ d1.fields, ∀ frag, renderField p.2 p.1 = .ok frag →
          hasSub c1 frag = true) ∧
      (∀ t, tpl.lookup "search" = some t → Chunk.var "FIELDS" ∈ t →
        ∀ p ∈ d2.fields, ∀ frag, renderField p.2 p.1 = .ok frag →
          hasSub c2 frag = true) ∧
      (∀ t, tpl.lookup "write" = some t → Chunk.var "FIELDS" ∈ t →
        ∀ p ∈ d3.fields, ∀ frag, renderField p.2 p.1 = .ok frag →
          hasSub c3 frag = true) := by
  unfold convertApp at h
  rw [convertTasks_eq] at h
  simp only [List.map_cons, List.map_nil, List.cons_append, List.nil_append] at h
  cases h1 : writeStep tpl "trigger" d1 k1 with
  | error e => rw [h1] at h; simp [promiseAll] at h
  | ok v1 =>
  rw [h1] at h
  cases h2 : writeStep tpl "search" d2 k2 with
  | error e => rw [h2] at h; simp [promiseAll] at h
  | ok v2 =>
  rw [h2] at h
  cases h3 : writeStep tpl "write" d3 k3 with
  | error e => rw [h3] at h; simp [promiseAll] at h
  | ok v3 =>
  rw [h3] at h
  cases h4 : writeIndex tpl
      { general := g, triggers := [(k1, d1)], searches := [(k2, d2)],
        actions := [(k3, d3)] } with
  | error e => rw [h4] at h; simp [promiseAll] at h
  | ok v4 =>
  rw [h4] at h
  cases h5 : writePackageJson tpl
      { general := g, triggers := [(k1, d1)], searches := [(k2, d2)],
        actions := [(k3, d3)] } with
  | error e => rw [h5] at h; simp [promiseAll] at h
  | ok v5 =>
  rw [h5] at h
  have hfiles : files = [v1, v2, v3, v4, v5] := by
    have hh := h
    simp only [promiseAll] at hh
    exact (Except.ok.inj hh).symm
  subst hfiles
  unfold writeStep at h1 h2 h3
  unfold writeIndex at h4
  unfold writePackageJson at h5
  cases hr1 : renderStep tpl "trigger" d1 k1 with
  | error e => rw [hr1] at h1; simp [Except.map] at h1
  | ok c1 =>
  rw [hr1] at h1
  simp only [Except.map, Except.ok.injEq] at h1
  cases hr2 : renderStep tpl "search" d2 k2 with
  | error e => rw [hr2] at h2; simp [Except.map] at h2
  | ok c2 =>
  rw [hr2] at h2
  simp only [Except.map, Except.ok.injEq] at h2
  cases hr3 : renderStep tpl "write" d3 k3 with
  | error e => rw [hr3] at h3; simp [Except.map] at h3
  | ok c3 =>
  rw [hr3] at h3
  simp only [Except.map, Except.ok.injEq] at h3
  cases hr4 : renderIndex tpl
      { general := g, triggers := [(k1, d1)], searches := [(k2, d2)],
        actions := [(k3, d3)] } with
  | error e => rw [hr4] at h4; simp [Except.map] at h4
  | ok ci =>
  rw [hr4] at h4
  simp only [Except.map, Except.ok.injEq] at h4
  cases hr5 : renderPackageJson tpl
      { general := g, triggers := [(k1, d1)], searches := [(k2, d2)],
        actions := [(k3, d3)] } with
  | error e => rw [hr5] at h5; simp [Except.map] at h5
  | ok cp =>
  rw [hr5] at h5
  simp only [Except.map, Except.ok.injEq] at h5
  subst h1; subst h2; subst h3; subst h4; subst h5
  refine ⟨c1, c2, c3, ci, cp, rfl, ?_, ?_, ?_⟩
  · exact fun t hlk hv p hp frag hf => renderStep_fields_hasSub hr1 hlk hv hp hf
  · exact fun t hlk hv p hp frag hf => renderStep_fields_hasSub hr2 hlk hv hp hf
  · exact fun t hlk hv p hp frag hf => renderStep_fields_hasSub hr3 hlk hv hp hf

/-- A small concrete template directory with all five templates present. -/
def tplFull : TemplateStore :=
  [("trigger", [Chunk.lit "// trigger\n", Chunk.var "FIELDS"]),
   ("search", [Chunk.lit "// search\n", Chunk.var "FIELDS"]),
   ("write", [Chunk.lit "// write\n", Chunk.var "FIELDS"]),
   ("index", [Chunk.var "REQUIRES"]),
   ("package", [Chunk.var "NAME"])]

theorem convertApp_five_files_witness :
    ([("triggers/contact_new.js",
       "// trigger\n      \x7b\n        key: 'first_name',\n        label: 'undefined',\n        helpText: '(help text must be at least 10 characters)',\n        type: 'string',\n        required: false\n      \x7d"),
      ("searches/find_contact.js", "// search\n"),
      ("writes/add_contact.js", "// write\n"),
      ("index.js",
       "const contactNewTrigger = require('./triggers/contact_new');\nconst findContactSearch = require('./searches/find_contact');\nconst addContactWrite = require('./writes/add_contact');"),
      ("package.json", "demo-app")] : List (String × String)).map Prod.fst =
      ["triggers/contact_new.js", "searches/find_contact.js", "writes/add_contact.js",
       "index.js", "package.json"] := by
  obtain ⟨c1, c2, c3, ci, cp, hf, -, -, -⟩ :=
    convertApp_five_files tplFull { title := "Demo App", description := "demo" }
      "contact_new" "find_contact" "add contact"
      { fields := [("first_name", {})] } {} {}
      [("triggers/contact_new.js",
        "// trigger\n      \x7b\n        key: 'first_name',\n        label: 'undefined',\n        helpText: '(help text must be at least 10 characters)',\n        type: 'string',\n        required: false\n      \x7d"),
       ("searches/find_contact.js", "// search\n"),
       ("writes/add_contact.js", "// write\n"),
       ("index.js",
        "const contactNewTrigger = require('./triggers/contact_new');\nconst findContactSearch = require('./searches/find_contact');\nconst addContactWrite = require('./writes/add_contact');"),
       ("package.json", "demo-app")] rfl
  rw [congrArg (List.map Prod.fst) hf]
  rfl

/-! ## C9 -/

theorem promiseAll_writeSteps_fst (tpl : TemplateStore) (ty : String)
    {steps : List (String × StepDefinition)} {r : List (String × String)}
    (h : promiseAll (steps.map fun s => writeStep tpl ty s.2 s.1) = .ok r) :
    r.map Prod.fst = steps.map fun s =>
      ((stepTypeMap.lookup ty).getD "undefined") ++ "/" ++ snakeCase s.1 ++ ".js" := by
  induction steps generalizing r with
  | nil =>
    simp only [List.map_nil, promiseAll, Except.ok.injEq] at h
    rw [← h]
    rfl
  | cons s t ih =>
    simp only [List.map_cons] at h
    cases hw : writeStep tpl ty s.2 s.1 with
    | error e => rw [hw] at h; simp [promiseAll] at h
    | ok v =>
      rw [hw] at h
      cases ht : promiseAll (t.map fun s => writeStep tpl ty s.2 s.1) with
      | error e => simp [promiseAll, ht] at h
      | ok vs =>
        have hr : v :: vs = r := by simpa [promiseAll, ht] using h
        subst hr
        have hv : v.1 =
            ((stepTypeMap.lookup ty).getD "undefined") ++ "/" ++ snakeCase s.1 ++ ".js" := by
          unfold writeStep at hw
          cases hrs : renderStep tpl ty s.2 s.1 with
          | error e => rw [hrs] at hw; simp [Except.map] at hw
          | ok c =>
            rw [hrs] at hw
            simp only [Except.map, Except.ok.injEq] at hw
            rw [← hw]
        simp only [List.map_cons, hv, ih ht]

theorem wrap_injective (pre suf : String) :
    Function.Injective fun x : String => pre ++ x ++ suf := by
  intro a b hab
  have h := congrArg String.data hab
  simp only [String.data_append] at h
  rw [List.append_assoc, List.append_assoc] at h
  have h2 := List.append_cancel_left h
  have h3 := (List.append_inj' h2 rfl).1
  cases a
  cases b
  exact congrArg String.mk h3

theorem head_of_wrap {pre : String} {c : Char} {rest : List Char}
    (hp : pre.data = c :: rest) (x suf : String) :
    (pre ++ x ++ suf).data.head? = some c := by
  simp [String.data_append, hp]

theorem mem_map_wrap_head {pre suf : String} {c : Char} {rest : List Char}
    (hp : pre.data = c :: rest) {α : Type} (f : α → String) (l : List α) :
    ∀ a ∈ l.map fun s => pre ++ f s ++ suf, a.data.head? = some c := by
  intro a ha
  obtain ⟨s, _, rfl⟩ := List.mem_map.mp ha
  exact head_of_wrap hp (f s) suf

theorem disjoint_of_head_facts {l1 l2 : List String} {c1 c2 : Char}
    (h1 : ∀ a ∈ l1, a.data.head? = some c1) (h2 : ∀ b ∈ l2, b.data.head? = some c2)
    (hne : c1 ≠ c2) : l1.Disjoint l2 := by
  intro a ha hb
  have e1 := h1 a ha
  have e2 := h2 a hb
  rw [e1] at e2
  exact hne (Option.some.inj e2)

theorem nodup_wrap_map (pre suf : String) (l : List (String × StepDefinition))
    (hl : (l.map fun s => snakeCase s.1).Nodup) :
    (l.map fun s => pre ++ snakeCase s.1 ++ suf).Nodup := by
  have he : (l.map fun s => pre ++ snakeCase s.1 ++ suf) =
      ((l.map fun s => snakeCase s.1).map fun x => pre ++ x ++ suf) := by
    rw [List.map_map]
    rfl
  rw [he]
  exact List.Nodup.map (wrap_injective pre suf) hl

/-- C9: the conversion only reads the legacy definition — for every legacy
app agreeing with the input on the read fields the result is identical (the
embedding is pure: there is no mutation of the input anywhere in
`convert.js`) — and all derived artifacts are write-once outputs keyed by
step key and category: the written paths are exactly the category-directory
plus snake-cased-key paths in task order, and whenever the snake-cased keys
within each category are distinct, no path is ever written twice. -/
theorem convertApp_reads_only (tpl : TemplateStore) (app : LegacyApp)
    (files : List (String × String))
    (h : convertApp tpl app = .ok files) :
    (∀ app' : LegacyApp, app'.general = app.general → app'.triggers = app.triggers →
      app'.searches = app.searches → app'.actions = app.actions →
      convertApp tpl app' = .ok files) ∧
    files.map Prod.fst =
      app.triggers.map (fun s => "triggers/" ++ snakeCase s.1 ++ ".js") ++
      (app.searches.map (fun s => "searches/" ++ snakeCase s.1 ++ ".js") ++
       (app.actions.map (fun s => "writes/" ++ snakeCase s.1 ++ ".js") ++
        ["index.js", "package.json"])) ∧
    ((app.triggers.map fun s => snakeCase s.1).Nodup →
     (app.searches.map fun s => snakeCase s.1).Nodup →
     (app.actions.map fun s => snakeCase s.1).Nodup →
     (files.map Prod.fst).Nodup) := by
  have hpaths : files.map Prod.fst =
      app.triggers.map (fun s => "triggers/" ++ snakeCase s.1 ++ ".js") ++
      (app.searches.map (fun s => "searches/" ++ snakeCase s.1 ++ ".js") ++
       (app.actions.map (fun s => "writes/" ++ snakeCase s.1 ++ ".js") ++
        ["index.js", "package.json"])) := by
    have hh := h
    unfold convertApp at hh
    rw [convertTasks_eq] at hh
    obtain ⟨r1, rest1, ha1, hb1, hc1⟩ := promiseAll_append_ok hh
    obtain ⟨r2, rest2, ha2, hb2, hc2⟩ := promiseAll_append_ok hb1
    obtain ⟨r3, r45, ha3, hb3, hc3⟩ := promiseAll_append_ok hb2
    have h45 : r45.map Prod.fst = ["index.js", "package.json"] := by
      cases hwi : writeIndex tpl app with
      | error e => rw [hwi] at hb3; simp [promiseAll] at hb3
      | ok vi =>
        rw [hwi] at hb3
        cases hwp : writePackageJson tpl app with
        | error e => simp [promiseAll, hwp] at hb3
        | ok vp =>
          rw [hwp] at hb3
          have hr : vi :: (vp :: []) = r45 := by simpa [promiseAll] using hb3
          have hvi : vi.1 = "index.js" := by
            unfold writeIndex at hwi
            cases hri : renderIndex tpl app with
            | error e => rw [hri] at hwi; simp [Except.map] at hwi
            | ok ci =>
              rw [hri] at hwi
              simp only [Except.map, Except.ok.injEq] at hwi
              rw [← hwi]
          have hvp : vp.1 = "package.json" := by
            unfold writePackageJson at hwp
            cases hrp : renderPackageJson tpl app with
            | error e => rw [hrp] at hwp; simp [Except.map] at hwp
            | ok cp =>
              rw [hrp] at hwp
              simp only [Except.map, Except.ok.injEq] at hwp
              rw [← hwp]
          rw [← hr]
          simp [hvi, hvp]
    rw [hc1, hc2, hc3]
    simp only [List.map_append]
    rw [promiseAll_writeSteps_fst tpl "trigger" ha1,
      promiseAll_writeSteps_fst tpl "search" ha2,
      promiseAll_writeSteps_fst tpl "write" ha3, h45]
    rfl
  refine ⟨?_, hpaths, ?_⟩
  · intro app' h1 h2 h3 h4
    obtain ⟨g', t', s', a'⟩ := app'
    obtain ⟨g, t, s, a⟩ := app
    simp only at h1 h2 h3 h4
    subst h1; subst h2; subst h3; subst h4
    exact h
  · intro hn1 hn2 hn3
    rw [hpaths]
    have hT : ∀ a ∈ app.triggers.map fun s => "triggers/" ++ snakeCase s.1 ++ ".js",
        a.data.head? = some 't' :=
      mem_map_wrap_head rfl (fun s : String × StepDefinition => snakeCase s.1) app.triggers
    have hS : ∀ a ∈ app.searches.map fun s => "searches/" ++ snakeCase s.1 ++ ".js",
        a.data.head? = some 's' :=
      mem_map_wrap_head rfl (fun s : String × StepDefinition => snakeCase s.1) app.searches
    have hW : ∀ a ∈ app.actions.map fun s => "writes/" ++ snakeCase s.1 ++ ".js",
        a.data.head? = some 'w' :=
      mem_map_wrap_head rfl (fun s : String × StepDefinition => snakeCase s.1) app.actions
    have hLdisj : ∀ {l : List String} {c : Char},
        (∀ a ∈ l, a.data.head? = some c) → c ≠ 'i' → c ≠ 'p' →
        l.Disjoint (["index.js", "package.json"] : List String) := by
      intro l c hc hi hp a ha hb
      have e1 := hc a ha
      simp only [List.mem_cons, List.not_mem_nil, or_false, List.mem_singleton] at hb
      rcases hb with rfl | rfl
      · exact hi (Option.some.inj e1.symm).symm.symm
      · exact hp (Option.some.inj e1.symm).symm.symm
    rw [List.nodup_append, List.nodup_append, List.nodup_append]
    refine ⟨nodup_wrap_map _ _ _ hn1,
      ⟨nodup_wrap_map _ _ _ hn2,
        ⟨nodup_wrap_map _ _ _ hn3, by decide, ?_⟩, ?_⟩, ?_⟩
    · -- actions disjoint from [index.js, package.json]
      exact hLdisj hW (by decide) (by decide)
    · -- searches disjoint from actions ++ [index, package]
      rw [List.disjoint_append_right]
      exact ⟨disjoint_of_head_facts hS hW (by decide), hLdisj hS (by decide) (by decide)⟩
    · -- triggers disjoint from the rest
      rw [List.disjoint_append_right, List.disjoint_append_right]
      exact ⟨disjoint_of_head_facts hT hS (by decide),
        disjoint_of_head_facts hT hW (by decide), hLdisj hT (by decide) (by decide)⟩

theorem convertApp_reads_only_witness :
    (([("triggers/contact_new.js", ""), ("searches/find_contact.js", ""),
       ("writes/add_contact.js", ""), ("index.js", ""), ("package.json", "")] :
      List (String × String)).map Prod.fst).Nodup := by
  have h :=
    (convertApp_reads_only
      [("trigger", []), ("search", []), ("write", []),
       ("index", []), ("package", [])]
      { general := { title := "Demo App", description := "demo" },
        triggers := [("contact_new", { fields := [] })],
        searches := [("find_contact", {})],
        actions := [("add contact", {})] }
      [("triggers/contact_new.js", ""), ("searches/find_contact.js", ""),
       ("writes/add_contact.js", ""), ("index.js", ""), ("package.json", "")]
      rfl).2.2
  exact h (by decide) (by decide) (by decide)

end Convert
